import Mathlib

attribute [local semireducible] Rat.add Rat.mul Rat.sub Rat.inv

/-!
# Verification of `sync.py` — a VLC multi-host playback synchronizer

Shallow embedding of the control loop in `src/sync.py`. Python floats are
modelled as rationals (`ℚ`); JSON field values as `JVal`; network effects
(status polls, seek outcomes) are supplied by an explicit environment
`Env`, and the commands a cycle issues are recorded in an event trace.
-/

namespace VlcSync

/-- Source: `DEFAULT_PORT = 8080`. -/
def DEFAULT_PORT : ℕ := 8080

/-- Source: the literal `1e-6` in `sync_once`'s first-run detector. -/
def EPS : ℚ := 1 / 1000000

/-- A JSON-ish value as found in a VLC status payload field. -/
inductive JVal where
  | num (q : ℚ)
  | str (s : String)
  | bool (b : Bool)
  | null
deriving DecidableEq

/-- Python truthiness of a JSON value (used by `if pos is not None and length:`). -/
def pyTruthy : JVal → Bool
  | .num q => decide (q ≠ 0)
  | .str s => decide (s ≠ "")
  | .bool b => b
  | .null => false

/-- Numeric value of a digit list (most significant first). -/
def digitsVal (l : List Char) : ℕ :=
  l.foldl (fun a c => 10 * a + (c.toNat - 48)) 0

/-- Model of Python `float(s)` on a string: plain decimal literals
`[+-]? digits [. digits]?` (at least one digit); anything else fails,
as `float` raises `ValueError` there. Exotic forms (exponents, `inf`)
are out of the modelled fragment. -/
def parseFloat (s : String) : Option ℚ :=
  let l := s.toList
  let sgn : ℚ := match l with
    | '-' :: _ => -1
    | _ => 1
  let rest := match l with
    | '-' :: r => r
    | '+' :: r => r
    | r => r
  let intPart := rest.takeWhile Char.isDigit
  let tail := rest.dropWhile Char.isDigit
  match tail with
  | [] =>
    if intPart = [] then none
    else some (sgn * (digitsVal intPart : ℚ))
  | '.' :: frac =>
    if frac.all Char.isDigit ∧ (intPart ≠ [] ∨ frac ≠ []) then
      some (sgn * ((digitsVal intPart : ℚ) + (digitsVal frac : ℚ) / (10 ^ frac.length)))
    else none
  | _ => none

/-- Model of Python `float(x)` on a JSON value; `none` models the raised
exception (always caught by the bare `except:` at both call sites in
`extract_precise_time`). -/
def pyFloat : JVal → Option ℚ
  | .num q => some q
  | .str s => parseFloat s
  | .bool b => some (if b then 1 else 0)
  | .null => none

/-- Model of Python `int()` applied to a float: truncation toward zero. -/
def pyTrunc (q : ℚ) : ℤ :=
  if 0 ≤ q then ⌊q⌋ else ⌈q⌉

/-- One successful status payload: the three fields `extract_precise_time`
reads, each possibly missing (`status.get(...)` returning `None`). -/
structure Status where
  position : Option JVal
  length : Option JVal
  time : Option JVal
deriving DecidableEq

/-- Source: `extract_precise_time(status)`. `none` input models the
"unavailable" snapshot (`get_vlc_status` returned `None`). -/
def extract_precise_time (status : Option Status) : Option ℚ :=
  match status with
  | none => none
  | some st =>
    let firstTry : Option ℚ :=
      match st.position, st.length with
      | some pos, some len =>
        if pyTruthy len then
          match pyFloat pos, pyFloat len with
          | some p, some l => some (p * l)
          | _, _ => none
        else none
      | _, _ => none
    match firstTry with
    | some v => some v
    | none =>
      match st.time with
      | some t => pyFloat t
      | none => none

/-- Model of Python `int(port_str)` on the digit string after the colon.
A non-numeric port makes `int()` raise in the source (program abort);
that case is out of the modelled fragment (mapped to 0 here). -/
def parsePort (l : List Char) : ℕ :=
  if l ≠ [] ∧ l.all Char.isDigit then digitsVal l else 0

/-- Source: `parse_host_port(host_str)`; `":" in host_str` guards, and
`split(":", 1)` splits at the first colon: host is everything before it,
the port string everything after it. -/
def parse_host_port (s : String) : String × ℕ :=
  let l := s.toList
  if l.contains ':' then
    let host := l.takeWhile (fun c => ¬ c = ':')
    let portStr := (l.dropWhile (fun c => ¬ c = ':')).drop 1
    (String.mk host, parsePort portStr)
  else (s, DEFAULT_PORT)

/-- Source: `seek_vlc_to_time(host, port, password, time_seconds, delta)`.
The Boolean `ok` stands for the network outcome of the seek request; the
applied target is computed before the request is sent and returned in
either branch. Line 88 of the source forces `delta = 0.0` before use. -/
def seek_vlc_to_time (ok : Bool) (time_seconds delta : ℚ) : Bool × ℤ :=
  let delta : ℚ := 0
  let target := pyTrunc (max (time_seconds + delta) 0)
  (ok, target)

/-- A network command issued by the program, tagged with the registry
index of the endpoint it goes to: a status query (`get_vlc_status` /
`timed_status_request`) or a seek request (`seek_vlc_to_time`). -/
inductive Event where
  | statusQuery (idx : ℕ) (host : String) (port : ℕ)
  | seek (idx : ℕ) (host : String) (port : ℕ) (target : ℤ)
deriving DecidableEq

/-- The drift recorded for one slave in `detect_delays`: the entry stays
at its initialisation `0.0` when the slave time is absent (`continue`),
and becomes `master_time - slave_time` otherwise (lines 149-154). -/
def slaveDrift (master_time : ℚ) (snap : Option Status) : ℚ :=
  match extract_precise_time snap with
  | none => 0
  | some slave_time => master_time - slave_time

/-- The status queries issued by one parallel fan-out over the parsed
endpoint list: one per registry index, written back to its own slot
whatever the completion order (lines 122-130). -/
def pollEvents (parsed : List (String × ℕ)) : List Event :=
  (List.range parsed.length).map (fun i =>
    let hp := parsed.getD i ("", 0)
    Event.statusQuery i hp.1 hp.2)

/-- Source: `detect_delays(host_strs)`. The fan-out is modelled by the
oracle `poll` (index `i` receives the response of endpoint `i`) and
`rtt` (measured round-trip millis). Returns the `(delays, rtt_ms)` pair
— `none` models the `(None, None)` returns — together with the trace of
status queries it issues (one per endpoint, before any result is
inspected). -/
def detect_delays (host_strs : List String) (poll : ℕ → Option Status)
    (rtt : ℕ → ℚ) : Option (List ℚ × List ℚ) × List Event :=
  match host_strs with
  | [] => (none, [])
  | _ :: _ =>
    let parsed := host_strs.map parse_host_port
    let n := parsed.length
    match extract_precise_time (poll 0) with
    | none => (none, pollEvents parsed)
    | some master_time =>
      (some ((List.range n).map (fun i =>
                if i = 0 then 0 else slaveDrift master_time (poll i)),
             (List.range n).map rtt),
       pollEvents parsed)

/-- The network environment one call of `sync_once` runs against:
the master's response to the initial `get_vlc_status`, the per-index
outcome of each seek request, and the per-index responses and RTTs of
the closing `detect_delays` fan-out. -/
structure Env where
  masterPoll : Option Status
  seekOk : ℕ → Bool
  repoll : ℕ → Option Status
  repollRtt : ℕ → ℚ

/-- The first-run detector of `sync_once` (line 186):
`all(abs(d) < 1e-6 for d in delays)`. -/
def firstRun (delays : List ℚ) : Bool :=
  delays.all (fun d => decide (|d| < EPS))

/-- The seek commands issued by the correction loop of `sync_once`
(lines 189-206): `for i in range(1, len(parsed))`, skipping index `i`
when `not first_run and abs(drift) < drift_threshold`. -/
def seekEvents (parsed : List (String × ℕ)) (delays : List ℚ)
    (drift_threshold : ℚ) (env : Env) (master_time : ℚ) : List Event :=
  (List.range' 1 (parsed.length - 1)).filterMap (fun i =>
    let hp := parsed.getD i ("", 0)
    let drift := delays.getD i 0
    if firstRun delays = false ∧ |drift| < drift_threshold then
      none
    else
      some (Event.seek i hp.1 hp.2
        (seek_vlc_to_time (env.seekOk i) master_time drift).2))

/-- Source: `sync_once(host_strs, delays, drift_threshold)`. Returns the
new `delays` value together with the trace of commands issued, in order.
`delays.getD i 0` models `delays[i]`, which in the source presupposes
`len(delays) == len(parsed)` (the C8 invariant); the empty-host case
raises `IndexError` in the source and is unreachable from `main`. -/
def sync_once (host_strs : List String) (delays : List ℚ)
    (drift_threshold : ℚ) (env : Env) : List ℚ × List Event :=
  let parsed := host_strs.map parse_host_port
  match parsed with
  | [] => (delays, [])
  | (master_host, master_port) :: _ =>
    let masterQuery := Event.statusQuery 0 master_host master_port
    match extract_precise_time env.masterPoll with
    | none => (delays, [masterQuery])
    | some master_time =>
      let seeks := seekEvents parsed delays drift_threshold env master_time
      let repolled := detect_delays host_strs env.repoll env.repollRtt
      let new_delays :=
        match repolled.1 with
        | none => delays
        | some p => p.1
      (new_delays, masterQuery :: (seeks ++ repolled.2))

/-- Source: `delays = [0.0] * len(hosts)` in `main` (initial state). -/
def init_delays (hosts : List String) : List ℚ :=
  List.replicate hosts.length 0

/-- Whether `e` is a status query to registry index `i`. -/
def isQueryTo (i : ℕ) : Event → Bool
  | .statusQuery j _ _ => decide (j = i)
  | .seek _ _ _ _ => false

/-- Whether `e` is a seek command. -/
def isSeek : Event → Bool
  | .statusQuery _ _ _ => false
  | .seek _ _ _ _ => true

/-- Whether `e` is a status query to a slave (registry index ≥ 1). -/
def isSlaveQuery : Event → Bool
  | .statusQuery j _ _ => decide (1 ≤ j)
  | .seek _ _ _ _ => false

/-- Default event used for trace indexing. -/
def dfltEv : Event := Event.statusQuery 0 "" 0

/-- The claimed ordering of C2: whenever the trace holds a seek command
at position `j`, every one of the `n` endpoints has already received a
status query at some position before `j`. -/
def seeksAfterFullPoll (tr : List Event) (n : ℕ) : Prop :=
  ∀ j < tr.length, isSeek (tr.getD j dfltEv) = true →
    ∀ i < n, ∃ k < j, isQueryTo i (tr.getD k dfltEv) = true

instance (tr : List Event) (n : ℕ) : Decidable (seeksAfterFullPoll tr n) := by
  unfold seeksAfterFullPoll; infer_instance

/-- A status payload carrying all three fields as plain numbers. -/
def numStatus (p l t : Option ℚ) : Status :=
  ⟨p.map JVal.num, l.map JVal.num, t.map JVal.num⟩

/-- A status payload reporting only the integer `time` field. -/
def timeStatus (q : ℚ) : Status :=
  ⟨none, none, some (JVal.num q)⟩

/-- Concrete environment: master alive at 10 s, the slave's poll fails. -/
def envDeadSlave : Env where
  masterPoll := some (timeStatus 10)
  seekOk := fun _ => true
  repoll := fun i => if i = 0 then some (timeStatus 10) else none
  repollRtt := fun _ => 0

/-- Concrete environment: the master's status fetch fails. -/
def envMasterDown : Env where
  masterPoll := none
  seekOk := fun _ => true
  repoll := fun i => if i = 0 then some (timeStatus 10) else none
  repollRtt := fun _ => 0

/-- Concrete fan-out oracle: master reports 25 s, every slave 20 s. -/
def pollBoth : ℕ → Option Status :=
  fun i => if i = 0 then some (timeStatus 25) else some (timeStatus 20)

/-- Concrete environment: every endpoint alive (master 25 s, slaves 20 s). -/
def envLive : Env where
  masterPoll := some (timeStatus 25)
  seekOk := fun _ => true
  repoll := pollBoth
  repollRtt := fun _ => 0

/-!
## Theorems
-/

/-- Truncation toward zero commutes with clamping at zero. -/
lemma pyTrunc_max_zero (q : ℚ) : pyTrunc (max q 0) = max (pyTrunc q) 0 := by
  unfold pyTrunc
  rcases le_or_lt 0 q with h | h
  · rw [max_eq_left h, if_pos h]
    exact (max_eq_left (Int.floor_nonneg.mpr h)).symm
  · rw [max_eq_right h.le, if_pos le_rfl, if_neg (not_le.mpr h), Int.floor_zero]
    refine (max_eq_right ?_).symm
    exact Int.ceil_le.mpr (by exact_mod_cast h.le)

/-- C5: for every real `targetTimeSeconds`, `seekTo` computes and sends
`appliedTargetSeconds = max(trunc(targetTimeSeconds), 0)`, a non-negative
integer; with target `-5.0` the applied target is `0`, and the same
integer is returned whether or not the command succeeds. -/
theorem seek_target_nonneg_trunc (ok : Bool) (ts delta : ℚ) :
    (seek_vlc_to_time ok ts delta).2 = max (pyTrunc ts) 0 ∧
    0 ≤ (seek_vlc_to_time ok ts delta).2 ∧
    (seek_vlc_to_time true ts delta).2 = (seek_vlc_to_time false ts delta).2 ∧
    (seek_vlc_to_time ok (-5) delta).2 = 0 := by
  have key : ∀ q : ℚ, (seek_vlc_to_time ok q delta).2 = max (pyTrunc q) 0 := by
    intro q
    show pyTrunc (max (q + 0) 0) = max (pyTrunc q) 0
    rw [add_zero, pyTrunc_max_zero]
  refine ⟨key ts, ?_, rfl, ?_⟩
  · rw [key ts]; exact le_max_right _ _
  · rw [key (-5)]
    have : pyTrunc (-5) = -5 := by decide
    rw [this]; rfl

/-- C9: the result of `seekTo` is independent of its delta/adjustment
argument — line 88 forces `delta = 0.0` before use, so any two delta
values give the same applied target (and the same full result). -/
theorem seek_delta_independent (ok : Bool) (ts delta1 delta2 : ℚ) :
    seek_vlc_to_time ok ts delta1 = seek_vlc_to_time ok ts delta2 := rfl

/-- C6: on snapshots whose present fields are plain numbers,
`extractTime` follows the priority policy: position × length when both
are present and length is non-zero, else the `time` field, else absent;
in particular `{position: 0.5, length: 120} ↦ 60.0`, `{time: 42} ↦ 42.0`
and `{} ↦ absent`. -/
theorem extract_time_priority (p l t : Option ℚ) :
    (extract_precise_time (some (numStatus p l t)) =
      match p, l with
      | some pv, some lv => if lv = 0 then t else some (pv * lv)
      | some _, none => t
      | none, _ => t) ∧
    extract_precise_time (some (numStatus (some (1/2)) (some 120) none)) = some 60 ∧
    extract_precise_time (some (numStatus none none (some 42))) = some 42 ∧
    extract_precise_time (some (numStatus none none none)) = none := by
  refine ⟨?_, by decide, by decide, by decide⟩
  rcases p with _ | pv <;> rcases l with _ | lv
  · rcases t with _ | tv <;> rfl
  · rcases t with _ | tv <;> rfl
  · rcases t with _ | tv <;> rfl
  · by_cases hl : lv = 0
    · subst hl
      rcases t with _ | tv <;> simp [extract_precise_time, numStatus, pyFloat, pyTruthy]
    · simp [extract_precise_time, numStatus, pyFloat, pyTruthy, hl]

/-- C10: when position and a truthy length are present but a numeric
conversion fails, `extractTime` neither raises nor gives up: it falls
back to the `time` field exactly as if position/length were absent,
returning absent only when that field is missing or non-convertible. -/
theorem extract_time_fallback (st : Status) (pv lv : JVal)
    (hpos : st.position = some pv) (hlen : st.length = some lv)
    (htruthy : pyTruthy lv = true)
    (hfail : pyFloat pv = none ∨ pyFloat lv = none) :
    extract_precise_time (some st) =
      (match st.time with
       | some tv => pyFloat tv
       | none => none) := by
  rcases st with ⟨pos, len, time⟩
  dsimp only at hpos hlen ⊢
  subst hpos
  subst hlen
  simp only [extract_precise_time, htruthy, if_true]
  rcases hfail with hf | hf
  · rw [hf]
  · rw [hf]
    rcases pyFloat pv with _ | x <;> rcases time with _ | tv <;> rfl

/-- Witness for C10: `{position: "abc", length: 120, time: 42}` falls
back to the `time` field and yields `42.0`. -/
theorem extract_time_fallback_witness :
    extract_precise_time
      (some ⟨some (JVal.str "abc"), some (JVal.num 120), some (JVal.num 42)⟩) =
      some 42 :=
  (extract_time_fallback ⟨some (JVal.str "abc"), some (JVal.num 120), some (JVal.num 42)⟩
    (JVal.str "abc") (JVal.num 120) rfl rfl (by decide) (Or.inl (by decide))).trans rfl

/-- The first component of `detect_delays` on a nonempty host list is
either `none` (master unreadable) or the freshly built
`(delays, rtt_ms)` pair. -/
lemma detect_delays_fst_cases (a : String) (l : List String)
    (poll : ℕ → Option Status) (rtt : ℕ → ℚ) :
    (detect_delays (a :: l) poll rtt).1 = none ∨
    ∃ mt, extract_precise_time (poll 0) = some mt ∧
      (detect_delays (a :: l) poll rtt).1 =
        some ((List.range (a :: l).length).map
                (fun j => if j = 0 then 0 else slaveDrift mt (poll j)),
              (List.range (a :: l).length).map rtt) := by
  cases hx : extract_precise_time (poll 0) with
  | none => left; simp [detect_delays, hx]
  | some mt => right; refine ⟨mt, rfl, ?_⟩; simp [detect_delays, hx]

/-- Reading slot `i < n` of the freshly built drift list. -/
lemma fresh_delays_getD (n i : ℕ) (f : ℕ → ℚ) (hin : i < n) :
    ((List.range n).map (fun j => if j = 0 then 0 else f j)).getD i 0 =
      if i = 0 then 0 else f i := by
  rw [List.getD_eq_getElem?_getD, List.getElem?_map, List.getElem?_range hin]
  rfl

/-- C7: whenever both the master's and slave `i`'s playback times are
extracted, the drift `detect_delays` records for slave `i` is exactly
`masterTime - slaveTime`, positive when the slave is behind. -/
theorem drift_exact_subtraction (hosts : List String)
    (poll : ℕ → Option Status) (rtt : ℕ → ℚ) (i : ℕ) (mt st : ℚ)
    (hne : hosts ≠ []) (hi : 0 < i) (hin : i < hosts.length)
    (hm : extract_precise_time (poll 0) = some mt)
    (hslave : extract_precise_time (poll i) = some st) :
    ∃ delays rtts,
      (detect_delays hosts poll rtt).1 = some (delays, rtts) ∧
      delays.getD i 0 = mt - st ∧
      (st < mt → 0 < delays.getD i 0) := by
  obtain ⟨a, l, rfl⟩ : ∃ a l, hosts = a :: l := by
    cases hosts with
    | nil => exact absurd rfl hne
    | cons a l => exact ⟨a, l, rfl⟩
  rcases detect_delays_fst_cases a l poll rtt with hnone | ⟨mt2, hx, hsome⟩
  · exfalso
    simp [detect_delays, hm] at hnone
  · rw [hm] at hx
    injection hx with hx
    subst hx
    refine ⟨_, _, hsome, ?_, ?_⟩
    · rw [fresh_delays_getD _ _ _ hin, if_neg hi.ne', slaveDrift, hslave]
    · intro hlt
      rw [fresh_delays_getD _ _ _ hin, if_neg hi.ne', slaveDrift, hslave]
      exact sub_pos.mpr hlt

/-- Witness for C7: master at 25 s, slave at 20 s gives drift exactly 5. -/
theorem drift_exact_subtraction_witness :
    ∃ delays rtts,
      (detect_delays ["m", "s"] pollBoth (fun _ => 0)).1 = some (delays, rtts) ∧
      delays.getD 1 0 = 25 - 20 ∧
      ((20 : ℚ) < 25 → 0 < delays.getD 1 0) :=
  drift_exact_subtraction ["m", "s"] pollBoth (fun _ => 0) 1 25 20
    (by decide) (by decide) (by decide) (by decide) (by decide)

/-- C4: a cycle in which the master's playback time cannot be extracted
issues no seek command and returns the prior DriftState unchanged. -/
theorem master_unavailable_aborts (hosts : List String) (delays : List ℚ)
    (t : ℚ) (env : Env)
    (hm : extract_precise_time env.masterPoll = none) :
    (sync_once hosts delays t env).1 = delays ∧
    ∀ e ∈ (sync_once hosts delays t env).2, isSeek e = false := by
  cases hosts with
  | nil => exact ⟨rfl, fun e he => absurd he (List.not_mem_nil e)⟩
  | cons a l =>
    obtain ⟨mh, mp, hhp⟩ : ∃ mh mp, parse_host_port a = (mh, mp) :=
      ⟨(parse_host_port a).1, (parse_host_port a).2, rfl⟩
    simp only [sync_once, List.map_cons, hhp, hm]
    refine ⟨trivial, ?_⟩
    intro e he
    rw [List.mem_singleton] at he
    subst he
    rfl

/-- Witness for C4: with the master's fetch failing, the prior drift
state `[1, 2]` survives untouched and no seek appears in the trace. -/
theorem master_unavailable_aborts_witness :
    (sync_once ["m", "s"] [1, 2] 1 envMasterDown).1 = [1, 2] ∧
    ∀ e ∈ (sync_once ["m", "s"] [1, 2] 1 envMasterDown).2, isSeek e = false :=
  master_unavailable_aborts ["m", "s"] [1, 2] 1 envMasterDown (by decide)

/-- C8: the DriftState invariant — same length as the endpoint list and
`0.0` in the master's slot — holds of the initial state built in `main`
and is preserved by every `sync_once` cycle. -/
theorem drift_state_invariant (hosts : List String) (delays : List ℚ)
    (t : ℚ) (env : Env)
    (hne : hosts ≠ [])
    (hlen : delays.length = hosts.length)
    (hmaster : delays.getD 0 0 = 0) :
    ((init_delays hosts).length = hosts.length ∧
      (init_delays hosts).getD 0 0 = 0) ∧
    (sync_once hosts delays t env).1.length = hosts.length ∧
    (sync_once hosts delays t env).1.getD 0 0 = 0 := by
  obtain ⟨a, l, rfl⟩ : ∃ a l, hosts = a :: l := by
    cases hosts with
    | nil => exact absurd rfl hne
    | cons a l => exact ⟨a, l, rfl⟩
  refine ⟨⟨List.length_replicate _ _, by simp [init_delays]⟩, ?_⟩
  obtain ⟨mh, mp, hhp⟩ : ∃ mh mp, parse_host_port a = (mh, mp) :=
    ⟨(parse_host_port a).1, (parse_host_port a).2, rfl⟩
  cases hx : extract_precise_time env.masterPoll with
  | none =>
    simp only [sync_once, List.map_cons, hhp, hx]
    exact ⟨hlen, hmaster⟩
  | some mt =>
    simp only [sync_once, List.map_cons, hhp, hx]
    rcases detect_delays_fst_cases a l env.repoll env.repollRtt with hnone | ⟨mt2, _, hsome⟩
    · rw [hnone]
      exact ⟨hlen, hmaster⟩
    · rw [hsome]
      constructor
      · simp
      · rw [fresh_delays_getD _ _ _ (by simp), if_pos rfl]

/-- Witness for C8: a live two-endpoint cycle keeps length 2 and a zero
master slot. -/
theorem drift_state_invariant_witness :
    ((init_delays ["m", "s"]).length = (["m", "s"] : List String).length ∧
      (init_delays ["m", "s"]).getD 0 0 = 0) ∧
    (sync_once ["m", "s"] [0, 3/10] 1 envLive).1.length =
      (["m", "s"] : List String).length ∧
    (sync_once ["m", "s"] [0, 3/10] 1 envLive).1.getD 0 0 = 0 :=
  drift_state_invariant ["m", "s"] [0, 3/10] 1 envLive
    (by decide) (by decide) (by decide)

/-- The trace of `detect_delays` on a nonempty host list is always the
full fan-out, one status query per endpoint. -/
lemma detect_delays_snd (a : String) (l : List String)
    (poll : ℕ → Option Status) (rtt : ℕ → ℚ) :
    (detect_delays (a :: l) poll rtt).2 =
      pollEvents ((a :: l).map parse_host_port) := by
  cases hx : extract_precise_time (poll 0) <;> simp [detect_delays, hx]

/-- No seek command ever appears in a fan-out trace. -/
lemma seek_not_mem_pollEvents (parsed : List (String × ℕ)) (i : ℕ)
    (h : String) (p : ℕ) (tgt : ℤ) :
    Event.seek i h p tgt ∉ pollEvents parsed := by
  intro hmem
  rw [pollEvents, List.mem_map] at hmem
  obtain ⟨j, _, hj⟩ := hmem
  exact Event.noConfusion hj

/-- Membership of a seek command in the correction loop's output,
characterised: the index is a slave index and the skip condition
`not first_run and abs(drift) < threshold` fails. -/
lemma seek_mem_seekEvents (parsed : List (String × ℕ)) (delays : List ℚ)
    (t : ℚ) (env : Env) (mt : ℚ) (i : ℕ) (h : String) (p : ℕ) (tgt : ℤ) :
    Event.seek i h p tgt ∈ seekEvents parsed delays t env mt ↔
      (1 ≤ i ∧ i < parsed.length) ∧
      ¬(firstRun delays = false ∧ |delays.getD i 0| < t) ∧
      h = (parsed.getD i ("", 0)).1 ∧ p = (parsed.getD i ("", 0)).2 ∧
      tgt = (seek_vlc_to_time (env.seekOk i) mt (delays.getD i 0)).2 := by
  unfold seekEvents
  rw [List.mem_filterMap]
  constructor
  · rintro ⟨j, hj, hfj⟩
    rw [List.mem_range'_1] at hj
    by_cases hc : firstRun delays = false ∧ |delays.getD j 0| < t
    · rw [if_pos hc] at hfj
      exact Option.noConfusion hfj
    · rw [if_neg hc] at hfj
      simp only [Option.some.injEq, Event.seek.injEq] at hfj
      obtain ⟨rfl, rfl, rfl, rfl⟩ := hfj
      exact ⟨⟨hj.1, by omega⟩, hc, rfl, rfl, rfl⟩
  · rintro ⟨⟨h1, h2⟩, hcond, rfl, rfl, rfl⟩
    refine ⟨i, ?_, ?_⟩
    · rw [List.mem_range'_1]
      omega
    · rw [if_neg hcond]

/-- C3: with the master readable, a seek is issued to slave `i` iff the
cycle is a first run or `|drift[i]| ≥ threshold`, where first-run means
every stored drift has absolute value below `1e-6`; so an all-zero
DriftState forces correction of every slave whatever the threshold. -/
theorem correction_policy_iff (hosts : List String) (delays : List ℚ)
    (t : ℚ) (env : Env) (i : ℕ) (mt : ℚ)
    (hne : hosts ≠ [])
    (hm : extract_precise_time env.masterPoll = some mt)
    (hi : 1 ≤ i) (hin : i < hosts.length) :
    ((∃ h p tgt, Event.seek i h p tgt ∈ (sync_once hosts delays t env).2) ↔
      (firstRun delays = true ∨ t ≤ |delays.getD i 0|)) ∧
    (firstRun delays = true ↔ ∀ d ∈ delays, |d| < EPS) := by
  obtain ⟨a, l, rfl⟩ : ∃ a l, hosts = a :: l := by
    cases hosts with
    | nil => exact absurd rfl hne
    | cons a l => exact ⟨a, l, rfl⟩
  obtain ⟨mh, mp, hhp⟩ : ∃ mh mp, parse_host_port a = (mh, mp) :=
    ⟨(parse_host_port a).1, (parse_host_port a).2, rfl⟩
  refine ⟨?_, by simp [firstRun, List.all_eq_true]⟩
  simp only [sync_once, List.map_cons, hhp, hm, detect_delays_snd]
  constructor
  · rintro ⟨h, p, tgt, hmem⟩
    rcases List.mem_cons.mp hmem with heq | hmem2
    · exact Event.noConfusion heq
    rcases List.mem_append.mp hmem2 with hseek | hpoll
    · rw [seek_mem_seekEvents] at hseek
      obtain ⟨_, hcond, _⟩ := hseek
      by_cases hf : firstRun delays = true
      · exact Or.inl hf
      · refine Or.inr ?_
        rcases not_and_or.mp hcond with hfr | hlt
        · exact absurd (Bool.not_eq_true _ ▸ hf : firstRun delays = false) hfr
        · exact not_lt.mp hlt
    · exact absurd hpoll (seek_not_mem_pollEvents _ _ _ _ _)
  · intro hcase
    refine ⟨(((mh, mp) :: List.map parse_host_port l).getD i ("", 0)).1,
            (((mh, mp) :: List.map parse_host_port l).getD i ("", 0)).2,
            (seek_vlc_to_time (env.seekOk i) mt (delays.getD i 0)).2,
            List.mem_cons_of_mem _ (List.mem_append_left _ ?_)⟩
    rw [seek_mem_seekEvents]
    have hlen2 : i < ((mh, mp) :: List.map parse_host_port l).length := by
      simpa using hin
    refine ⟨⟨hi, hlen2⟩, ?_, rfl, rfl, rfl⟩
    rcases hcase with hf | hge
    · rintro ⟨h1, _⟩
      rw [hf] at h1
      exact Bool.noConfusion h1
    · rintro ⟨_, h2⟩
      exact absurd hge (not_le.mpr h2)

/-- Witness for C3: DriftState `[0.0, 0.3]` with threshold `0.1`: slave 1
is corrected because `|0.3| ≥ 0.1` even though it is not a first run. -/
theorem correction_policy_iff_witness :
    ((∃ h p tgt,
        Event.seek 1 h p tgt ∈ (sync_once ["m", "s"] [0, 3/10] (1/10) envLive).2) ↔
      (firstRun [0, 3/10] = true ∨ (1/10 : ℚ) ≤ |([0, 3/10] : List ℚ).getD 1 0|)) ∧
    (firstRun [0, 3/10] = true ↔ ∀ d ∈ ([0, 3/10] : List ℚ), |d| < EPS) :=
  correction_policy_iff ["m", "s"] [0, 3/10] (1/10) envLive 1 25
    (by decide) (by decide) (by decide) (by decide)

/-- Every element of the correction loop's output is a seek command. -/
lemma isSeek_of_mem_seekEvents (parsed : List (String × ℕ)) (delays : List ℚ)
    (t : ℚ) (env : Env) (mt : ℚ) (e : Event)
    (he : e ∈ seekEvents parsed delays t env mt) : isSeek e = true := by
  rw [seekEvents, List.mem_filterMap] at he
  obtain ⟨j, _, hj⟩ := he
  by_cases hc : firstRun delays = false ∧ |delays.getD j 0| < t
  · rw [if_pos hc] at hj
    exact Option.noConfusion hj
  · rw [if_neg hc] at hj
    cases Option.some.inj hj
    rfl

/-- Every element of a fan-out trace is a status query, never a seek. -/
lemma isSeek_of_mem_pollEvents (parsed : List (String × ℕ)) (e : Event)
    (he : e ∈ pollEvents parsed) : isSeek e = false := by
  rw [pollEvents, List.mem_map] at he
  obtain ⟨j, _, hj⟩ := he
  cases hj
  rfl

/-- A slave status query is not a seek. -/
lemma isSeek_eq_false_of_isSlaveQuery (e : Event)
    (he : isSlaveQuery e = true) : isSeek e = false := by
  cases e with
  | statusQuery j h p => rfl
  | seek j h p tgt => exact absurd he (by simp [isSlaveQuery])

/-- Indexing with a default inside the bounds yields a member. -/
lemma getD_mem_of_lt {α : Type} (l : List α) (n : ℕ) (d : α)
    (h : n < l.length) : l.getD n d ∈ l := by
  rw [List.getD_eq_getElem?_getD, List.getElem?_eq_getElem h]
  exact List.getElem_mem h

/-- Trace of a master-unreadable cycle: the lone master query. -/
lemma sync_once_trace_none (a : String) (l : List String) (delays : List ℚ)
    (t : ℚ) (env : Env) (hm : extract_precise_time env.masterPoll = none) :
    (sync_once (a :: l) delays t env).2 =
      [Event.statusQuery 0 (parse_host_port a).1 (parse_host_port a).2] := by
  obtain ⟨mh, mp, hhp⟩ : ∃ mh mp, parse_host_port a = (mh, mp) :=
    ⟨(parse_host_port a).1, (parse_host_port a).2, rfl⟩
  simp [sync_once, List.map_cons, hhp, hm]

/-- Trace of a master-readable cycle: master query, then the seeks, then
the closing fan-out. -/
lemma sync_once_trace_some (a : String) (l : List String) (delays : List ℚ)
    (t : ℚ) (env : Env) (mt : ℚ)
    (hm : extract_precise_time env.masterPoll = some mt) :
    (sync_once (a :: l) delays t env).2 =
      Event.statusQuery 0 (parse_host_port a).1 (parse_host_port a).2 ::
      (seekEvents ((a :: l).map parse_host_port) delays t env mt ++
       pollEvents ((a :: l).map parse_host_port)) := by
  obtain ⟨mh, mp, hhp⟩ : ∃ mh mp, parse_host_port a = (mh, mp) :=
    ⟨(parse_host_port a).1, (parse_host_port a).2, rfl⟩
  simp [sync_once, List.map_cons, hhp, hm, detect_delays_snd]

/-- Counterexample to C2: in a healthy first-run cycle over two
endpoints, a seek to the slave is issued after only the master has been
polled — the claimed "all endpoints polled before any seek" ordering is
violated by the cycle's own trace. -/
theorem seek_before_full_poll :
    (∃ tgt, Event.seek 1 "s" 8080 tgt ∈ (sync_once ["m", "s"] [0, 0] 1 envLive).2) ∧
    ¬ seeksAfterFullPoll (sync_once ["m", "s"] [0, 0] 1 envLive).2 2 := by
  constructor
  · exact ⟨25, by decide⟩
  · decide

/-- C2 (amended): a cycle begins with a status query to the master only;
all seek commands are issued before any slave is polled; the full
per-endpoint fan-out runs at the end of the cycle and, when the master's
time was extracted, it does poll every endpoint. -/
theorem cycle_command_order (hosts : List String) (delays : List ℚ)
    (t : ℚ) (env : Env) (hne : hosts ≠ []) :
    (0 < (sync_once hosts delays t env).2.length ∧
      isQueryTo 0 ((sync_once hosts delays t env).2.getD 0 dfltEv) = true) ∧
    (∀ j1 j2, j1 < (sync_once hosts delays t env).2.length →
      j2 < (sync_once hosts delays t env).2.length →
      isSeek ((sync_once hosts delays t env).2.getD j1 dfltEv) = true →
      isSlaveQuery ((sync_once hosts delays t env).2.getD j2 dfltEv) = true →
      j1 < j2) ∧
    (∀ mt, extract_precise_time env.masterPoll = some mt →
      ∀ i < hosts.length, ∃ k < (sync_once hosts delays t env).2.length,
        isQueryTo i ((sync_once hosts delays t env).2.getD k dfltEv) = true) := by
  obtain ⟨a, l, rfl⟩ : ∃ a l, hosts = a :: l := by
    cases hosts with
    | nil => exact absurd rfl hne
    | cons a l => exact ⟨a, l, rfl⟩
  cases hx : extract_precise_time env.masterPoll with
  | none =>
    rw [sync_once_trace_none a l delays t env hx]
    refine ⟨⟨by simp, by simp [isQueryTo]⟩, ?_, ?_⟩
    · intro j1 j2 h1 h2 hs1 hs2
      have hj1 : j1 = 0 := by simpa using Nat.lt_one_iff.mp (by simpa using h1)
      subst hj1
      simp [isSeek] at hs1
    · intro mt hmt
      exact absurd hmt (by simp)
  | some mt =>
    rw [sync_once_trace_some a l delays t env mt hx]
    refine ⟨⟨by simp, by simp [isQueryTo]⟩, ?_, ?_⟩
    · intro j1 j2 h1 h2 hs1 hs2
      set S := seekEvents ((a :: l).map parse_host_port) delays t env mt with hS
      set P := pollEvents ((a :: l).map parse_host_port) with hP
      rw [List.length_cons, List.length_append] at h1 h2
      cases j1 with
      | zero => simp [isSeek] at hs1
      | succ k1 =>
        cases j2 with
        | zero => simp [isSlaveQuery] at hs2
        | succ k2 =>
          rw [List.getD_cons_succ] at hs1 hs2
          have hk1 : k1 < S.length := by
            by_contra hge
            push_neg at hge
            rw [List.getD_eq_getElem?_getD, List.getElem?_append_right hge,
              ← List.getD_eq_getElem?_getD] at hs1
            have hmem : (P.getD (k1 - S.length) dfltEv) ∈ P :=
              getD_mem_of_lt P (k1 - S.length) dfltEv (by omega)
            rw [isSeek_of_mem_pollEvents _ _ hmem] at hs1
            exact Bool.noConfusion hs1
          have hk2 : S.length ≤ k2 := by
            by_contra hlt
            push_neg at hlt
            rw [List.getD_eq_getElem?_getD, List.getElem?_append_left hlt,
              ← List.getD_eq_getElem?_getD] at hs2
            have hmem : (S.getD k2 dfltEv) ∈ S := getD_mem_of_lt S k2 dfltEv hlt
            have ht := isSeek_of_mem_seekEvents _ _ _ _ _ _ hmem
            rw [isSeek_eq_false_of_isSlaveQuery _ hs2] at ht
            exact Bool.noConfusion ht
          omega
    · intro mt2 hmt2 i hin
      cases Option.some.inj hmt2
      set S := seekEvents ((a :: l).map parse_host_port) delays t env mt with hS
      have hlenP : (pollEvents ((a :: l).map parse_host_port)).length =
          (a :: l).length := by
        simp [pollEvents]
      refine ⟨S.length + i + 1, ?_, ?_⟩
      · rw [List.length_cons, List.length_append, hlenP]
        omega
      · rw [List.getD_cons_succ, List.getD_eq_getElem?_getD,
          List.getElem?_append_right (by omega)]
        have hidx : S.length + i - S.length = i := by omega
        rw [hidx, pollEvents, List.getElem?_map,
          List.getElem?_range (by simpa using hin)]
        simp [isQueryTo]

/-- Witness for C2 (amended): the ordering facts at a concrete healthy
two-endpoint cycle. -/
theorem cycle_command_order_witness :
    (0 < (sync_once ["m", "s"] [0, 0] 1 envLive).2.length ∧
      isQueryTo 0 ((sync_once ["m", "s"] [0, 0] 1 envLive).2.getD 0 dfltEv) = true) ∧
    (∀ j1 j2, j1 < (sync_once ["m", "s"] [0, 0] 1 envLive).2.length →
      j2 < (sync_once ["m", "s"] [0, 0] 1 envLive).2.length →
      isSeek ((sync_once ["m", "s"] [0, 0] 1 envLive).2.getD j1 dfltEv) = true →
      isSlaveQuery ((sync_once ["m", "s"] [0, 0] 1 envLive).2.getD j2 dfltEv) = true →
      j1 < j2) ∧
    (∀ mt, extract_precise_time envLive.masterPoll = some mt →
      ∀ i < (["m", "s"] : List String).length,
        ∃ k < (sync_once ["m", "s"] [0, 0] 1 envLive).2.length,
          isQueryTo i ((sync_once ["m", "s"] [0, 0] 1 envLive).2.getD k dfltEv) = true) :=
  cycle_command_order ["m", "s"] [0, 0] 1 envLive (by decide)

/-- Counterexample to C1: a first-run cycle (all-zero DriftState) with a
slave whose poll fails — its only poll of the cycle, the closing
fan-out, returns the unavailable snapshot — still issues a seek command
to that slave: the absent-time short-circuit lives in `detect_delays`
and cannot exclude anyone from `sync_once`'s correction pass. -/
theorem first_run_seeks_dead_slave :
    envDeadSlave.repoll 1 = none ∧
    firstRun [0, 0] = true ∧
    Event.seek 1 "s" 8080 10 ∈ (sync_once ["m", "s"] [0, 0] 1 envDeadSlave).2 := by
  decide

/-- C1 (amended): a slave whose poll fails has its drift recorded as
`0.0` in the DriftState `detect_delays` produces, and a slave whose
stored drift is `0.0` receives no seek in a cycle that is not a first
run (for any positive threshold); on a first run, however, the forced
pass seeks every slave, a failed poll notwithstanding, because
corrections are decided from the stored DriftState alone. -/
theorem failed_poll_drift_zero_and_steady_skip :
    (∀ (hosts : List String) (poll : ℕ → Option Status) (rtt : ℕ → ℚ)
       (i : ℕ) (mt : ℚ),
      hosts ≠ [] → 1 ≤ i → i < hosts.length →
      extract_precise_time (poll 0) = some mt →
      extract_precise_time (poll i) = none →
      ∃ delays rtts,
        (detect_delays hosts poll rtt).1 = some (delays, rtts) ∧
        delays.getD i 0 = 0) ∧
    (∀ (hosts : List String) (delays : List ℚ) (t : ℚ) (env : Env) (i : ℕ),
      firstRun delays = false → delays.getD i 0 = 0 → 0 < t →
      ∀ h p tgt, Event.seek i h p tgt ∉ (sync_once hosts delays t env).2) := by
  constructor
  · intro hosts poll rtt i mt hne hi hin hm hslave
    obtain ⟨a, l, rfl⟩ : ∃ a l, hosts = a :: l := by
      cases hosts with
      | nil => exact absurd rfl hne
      | cons a l => exact ⟨a, l, rfl⟩
    rcases detect_delays_fst_cases a l poll rtt with hnone | ⟨mt2, hx, hsome⟩
    · exfalso
      simp [detect_delays, hm] at hnone
    · refine ⟨_, _, hsome, ?_⟩
      rw [fresh_delays_getD _ _ _ hin, if_neg (by omega : ¬ i = 0),
        slaveDrift, hslave]
  · intro hosts delays t env i hfr hzero ht h p tgt hmem
    cases hosts with
    | nil => exact absurd hmem (List.not_mem_nil _)
    | cons a l =>
      cases hx : extract_precise_time env.masterPoll with
      | none =>
        rw [sync_once_trace_none a l delays t env hx] at hmem
        rw [List.mem_singleton] at hmem
        exact Event.noConfusion hmem
      | some mt =>
        rw [sync_once_trace_some a l delays t env mt hx] at hmem
        rcases List.mem_cons.mp hmem with heq | hmem2
        · exact Event.noConfusion heq
        rcases List.mem_append.mp hmem2 with hseek | hpoll
        · rw [seek_mem_seekEvents] at hseek
          obtain ⟨_, hcond, _⟩ := hseek
          exact hcond ⟨hfr, by rw [hzero]; simpa using ht⟩
        · exact absurd hpoll (seek_not_mem_pollEvents _ _ _ _ _)

/-- Witness for C1 (amended): the dead slave's drift is recorded as 0,
and with DriftState `[0, 2, 0]` (not a first run) the zero-drift slave 2
gets no seek. -/
theorem failed_poll_drift_zero_and_steady_skip_witness :
    (∃ delays rtts,
      (detect_delays ["m", "s"] envDeadSlave.repoll envDeadSlave.repollRtt).1 =
        some (delays, rtts) ∧
      delays.getD 1 0 = 0) ∧
    (∀ h p tgt,
      Event.seek 2 h p tgt ∉ (sync_once ["m", "s", "u"] [0, 2, 0] 1 envLive).2) :=
  ⟨failed_poll_drift_zero_and_steady_skip.1 ["m", "s"] envDeadSlave.repoll
      envDeadSlave.repollRtt 1 10 (by decide) (by decide) (by decide)
      (by decide) (by decide),
   failed_poll_drift_zero_and_steady_skip.2 ["m", "s", "u"] [0, 2, 0] 1 envLive 2
      (by decide) (by decide) (by decide)⟩

end VlcSync
